import Mathlib

/-!
Shallow embedding of the photo-archiving upload orchestrator
(main.py) and its manifest (modules/db.py).

Strings are modelled by Lean strings; the Python string operations used by
the source (startswith, replace, truthiness) are defined below on the
underlying character lists.  Python dictionaries (the per-destination
remote inventories mapping content hash to file name) are modelled by
insertion-ordered association lists.  The upload adapters are modelled by
an outcome oracle per retry attempt.
-/

namespace VKArchive

/-- Python list/str prefix test on character lists. -/
def isPre : List Char → List Char → Bool
  | [], _ => true
  | _ :: _, [] => false
  | a :: as, b :: bs => a == b && isPre as bs

/-- Python str.startswith. -/
def pyStartsWith (s pre : String) : Bool := isPre pre.data s.data

/-- Python str.replace for a one-character pattern (the source only
calls replace with the pattern "."): replaces every occurrence from
left to right. -/
def replaceChar (pat : Char) (new : List Char) : List Char → List Char
  | [] => []
  | c :: rest =>
    if c == pat then new ++ replaceChar pat new rest
    else c :: replaceChar pat new rest

/-- Python str.replace with a one-character pattern. -/
def pyReplace (s : String) (pat : Char) (new : String) : String :=
  ⟨replaceChar pat new.data s.data⟩

/-- Python truthiness of a string: nonempty. -/
def strTruthy (s : String) : Bool := !s.data.isEmpty

/-- Python truthiness of dict.get: None and the empty string are falsy. -/
def optTruthy : Option String → Bool
  | none => false
  | some s => strTruthy s

/-! Python dict (insertion ordered) as an association list. -/

/-- Python dict.get. -/
def dget (m : List (String × String)) (k : String) : Option String :=
  (m.find? (fun kv => kv.1 == k)).map (fun kv => kv.2)

/-- Python dict assignment: replace the value in place if the key is
present, append a new binding otherwise. -/
def dinsert (m : List (String × String)) (k v : String) : List (String × String) :=
  if m.any (fun kv => kv.1 == k) then
    m.map (fun kv => if kv.1 == k then (k, v) else kv)
  else
    m ++ [(k, v)]

/-- Python dict.values. -/
def dvalues (m : List (String × String)) : List String := m.map (fun kv => kv.2)

/-! Manifest: modules/db.py FileList. -/

/-- One record of the files list: modules/db.py FileList item. -/
structure FileEntry where
  file_name : String
  size : String
  checksum : String
  disks : List String
deriving DecidableEq

namespace FileList

/-- FileList.get: first item whose file_name or checksum equals the key. -/
def get (items : List FileEntry) (key : String) : Option FileEntry :=
  items.find? (fun it => it.file_name == key || it.checksum == key)

/-- In-place mutation of the entry found by FileList.get for the given
key: append the disk locator to its disks list. -/
def appendDiskAt (key disk : String) : List FileEntry → List FileEntry
  | [] => []
  | it :: rest =>
    if it.file_name == key || it.checksum == key then
      { it with disks := it.disks ++ [disk] } :: rest
    else
      it :: appendDiskAt key disk rest

/-- Python expression (self.get(name) or self.get(checksum)). -/
def lookup2 (items : List FileEntry) (name cks : String) : Option FileEntry :=
  match get items name with
  | some it => some it
  | none => get items cks

/-- FileList.add.  The returned Bool is true when the call raises
FileAlreadyExistInFileList (in which case the list is returned
unchanged, as the raise happens before any mutation). -/
def add (items : List FileEntry) (name sz cks disk : String) :
    List FileEntry × Bool :=
  match get items name with
  | some it =>
    if disk ∈ it.disks then (items, true)
    else (appendDiskAt name disk items, false)
  | none =>
    match get items cks with
    | some it =>
      if disk ∈ it.disks then (items, true)
      else (appendDiskAt cks disk items, false)
    | none => (items ++ [⟨name, sz, cks, [disk]⟩], false)

end FileList

/-! Remote inventory build (start of run). -/

/-- Inventory build from a remote listing of (hash, name) pairs:
the source does dict[hash] = name for each listed entry in order. -/
def buildInventory (listing : List (String × String)) : List (String × String) :=
  listing.foldl (fun m hn => dinsert m hn.1 hn.2) []

/-! Source items and name resolution. -/

/-- The item data used by the upload loop of main.py. -/
structure Photo where
  likes_count : Nat
  dateStr : String
  file_ext : String
  md5 : String
  sizeStr : String
deriving DecidableEq

/-- Initial candidate name: likes_count dot extension. -/
def initialName (p : Photo) : String :=
  toString p.likes_count ++ "." ++ p.file_ext

/-- The renamed candidate built inside the collision loop of main.py:
i counts the existing names starting with the disambiguator and an
underscore; the candidate is disambiguator_date.ext, and when i is
nonzero every dot is replaced by (i) followed by a dot. -/
def renamed (inv : List (String × String)) (p : Photo) : String :=
  let i := (dvalues inv).countP (fun s => pyStartsWith s (toString p.likes_count ++ "_"))
  let base := toString p.likes_count ++ "_" ++ p.dateStr ++ "." ++ p.file_ext
  if i == 0 then base else pyReplace base '.' ("(" ++ toString i ++ ").")

/-- Name collision test of main.py: the candidate equals some value of
the inventory dict. -/
def nameCollides (inv : List (String × String)) (fname : String) : Bool :=
  (dvalues inv).any (fun s => fname == s)

/-- One pass of the while-loop of main.py: returns some newName when a
rename-and-continue happens, none when the loop breaks. -/
def resolveOnce (gE yE : Bool) (gInv yInv : List (String × String)) (p : Photo)
    (fname : String) : Option String :=
  if gE && nameCollides gInv fname && !optTruthy (dget gInv p.md5) then
    some (renamed gInv p)
  else if yE && nameCollides yInv fname && !optTruthy (dget yInv p.md5) then
    some (renamed yInv p)
  else
    none

/-- The while-loop of main.py, fuel-indexed (the source loop is
unbounded; a none result means the loop did not finish within the given
number of iterations). -/
def resolveLoop (gE yE : Bool) (gInv yInv : List (String × String)) (p : Photo) :
    Nat → String → Option String
  | 0, _ => none
  | fuel + 1, fname =>
    match resolveOnce gE yE gInv yInv p fname with
    | none => some fname
    | some fname2 => resolveLoop gE yE gInv yInv p fuel fname2

/-! Upload retry loop. -/

/-- Outcome of one adapter upload call: a truthy return value, a falsy
return value, a quota-exceeded exception (StorageQuotaExceeded for
Google, InsufficientStorageException for Yandex), or any other
exception. -/
inductive UploadOutcome where
  | success
  | falsy
  | quotaExceeded
  | transientError
deriving DecidableEq

/-- Per-destination mutable state: the adapter handle being non-None
(enabled) and the remote inventory dict. -/
structure DestState where
  enabled : Bool
  inv : List (String × String)
deriving DecidableEq

/-- State threaded through one retry loop: the destination state and
the shared manifest. -/
structure IterState where
  ds : DestState
  mf : List FileEntry
deriving DecidableEq

/-- Result of one iteration of the retry loop: the new state, the number
of adapter upload calls made (0 or 1), whether the loop halted (some
true: skip by checksum; some false: successful upload recorded), and the
list of physical uploads made (hash, name). -/
structure ARes where
  st : IterState
  calls : Nat
  halted : Option Bool
  ups : List (String × String)
deriving DecidableEq

/-- One iteration of the retry body of main.py for one destination. -/
def attemptOnce (outcome : UploadOutcome) (p : Photo) (fname locator : String)
    (st : IterState) : ARes :=
  if st.ds.enabled then
    if optTruthy (dget st.ds.inv p.md5) then
      ⟨st, 0, some true, []⟩
    else
      match outcome with
      | .success =>
        let inv2 := dinsert st.ds.inv p.md5 fname
        let r := FileList.add st.mf fname p.sizeStr p.md5 locator
        if r.2 then
          ⟨⟨⟨st.ds.enabled, inv2⟩, st.mf⟩, 1, none, [(p.md5, fname)]⟩
        else
          ⟨⟨⟨st.ds.enabled, inv2⟩, r.1⟩, 1, some false, [(p.md5, fname)]⟩
      | .falsy => ⟨st, 1, none, []⟩
      | .quotaExceeded => ⟨⟨⟨false, st.ds.inv⟩, st.mf⟩, 1, none, []⟩
      | .transientError => ⟨st, 1, none, []⟩
  else
    ⟨st, 0, none, []⟩

/-- Result of a whole retry loop: final state, total adapter upload
calls, how the loop ended (some true: skipped; some false: uploaded and
recorded; none: all retries exhausted without a break), and the list of
physical uploads. -/
structure LRes where
  st : IterState
  calls : Nat
  result : Option Bool
  ups : List (String × String)
deriving DecidableEq

/-- The retry loop of main.py over a list of attempt indices. -/
def uploadLoopAux (adapter : Nat → UploadOutcome) (p : Photo) (fname locator : String) :
    List Nat → IterState → LRes
  | [], st => ⟨st, 0, none, []⟩
  | a :: rest, st =>
    let r := attemptOnce (adapter a) p fname locator st
    match r.halted with
    | some b => ⟨r.st, r.calls, some b, r.ups⟩
    | none =>
      let l := uploadLoopAux adapter p fname locator rest r.st
      ⟨l.st, r.calls + l.calls, l.result, r.ups ++ l.ups⟩

/-- The retry loop for retry in range(0, 3). -/
def uploadLoop (adapter : Nat → UploadOutcome) (p : Photo) (fname locator : String)
    (st : IterState) : LRes :=
  uploadLoopAux adapter p fname locator [0, 1, 2] st

/-! One item across both destinations, and the whole run. -/

/-- Whole-run mutable state: both destination states and the manifest. -/
structure RunState where
  g : DestState
  y : DestState
  mf : List FileEntry
deriving DecidableEq

/-- Adapter behaviours: the outcome of the upload call for a given item
at a given retry attempt, per destination. -/
structure Behavior where
  gAdapter : Photo → Nat → UploadOutcome
  yAdapter : Photo → Nat → UploadOutcome

/-- Disk locator recorded in the manifest for Google uploads. -/
def gLocator (gPath : String) : String := "google:/" ++ gPath

/-- Disk locator recorded in the manifest for Yandex uploads. -/
def yLocator (yPath : String) : String := "yandex:/" ++ yPath

/-- Per-item result: new run state, adapter calls and uploads per
destination. -/
structure ItemOut where
  st : RunState
  gcalls : Nat
  ycalls : Nat
  gups : List (String × String)
  yups : List (String × String)
deriving DecidableEq

/-- Processing of one photo in main.py: resolve one shared name against
both enabled inventories, then run the Google retry loop, then the
Yandex retry loop, threading the manifest through both.  none when the
name-resolution loop does not terminate within the given fuel. -/
def processItem (bhv : Behavior) (fuel : Nat) (gPath yPath : String) (st : RunState)
    (p : Photo) : Option ItemOut :=
  match resolveLoop st.g.enabled st.y.enabled st.g.inv st.y.inv p fuel (initialName p) with
  | none => none
  | some fname =>
    let lg := uploadLoop (bhv.gAdapter p) p fname (gLocator gPath) ⟨st.g, st.mf⟩
    let ly := uploadLoop (bhv.yAdapter p) p fname (yLocator yPath) ⟨st.y, lg.st.mf⟩
    some ⟨⟨lg.st.ds, ly.st.ds, ly.st.mf⟩, lg.calls, ly.calls, lg.ups, ly.ups⟩

/-- Whole-run result: final state, per-item adapter call counts and the
flattened upload traces per destination. -/
structure RunOut where
  st : RunState
  gcalls : List Nat
  ycalls : List Nat
  gups : List (String × String)
  yups : List (String × String)
deriving DecidableEq

/-- The main photo loop of main.py over the item list. -/
def processAll (bhv : Behavior) (fuel : Nat) (gPath yPath : String) :
    RunState → List Photo → Option RunOut
  | st, [] => some ⟨st, [], [], [], []⟩
  | st, p :: ps =>
    match processItem bhv fuel gPath yPath st p with
    | none => none
    | some o =>
      match processAll bhv fuel gPath yPath o.st ps with
      | none => none
      | some ro =>
        some ⟨ro.st, o.gcalls :: ro.gcalls, o.ycalls :: ro.ycalls,
              o.gups ++ ro.gups, o.yups ++ ro.yups⟩

/-! Lemmas about the dict model. -/

lemma dget_dinsert_self (m : List (String × String)) (k v : String) :
    dget (dinsert m k v) k = some v := by
  unfold dinsert
  by_cases h : m.any (fun kv => kv.1 == k) = true
  · rw [if_pos h]
    unfold dget
    rw [List.find?_map]
    have hpred : ((fun kv : String × String => kv.1 == k) ∘
        (fun kv => if kv.1 == k then (k, v) else kv)) =
        (fun kv : String × String => kv.1 == k) := by
      funext kv
      by_cases hk : kv.1 = k <;> simp [hk]
    rw [hpred]
    have hsome : (m.find? (fun kv => kv.1 == k)).isSome := by
      rw [List.find?_isSome]
      obtain ⟨x, hx, hpx⟩ := List.any_eq_true.mp h
      exact ⟨x, hx, hpx⟩
    obtain ⟨kv, hkv⟩ := Option.isSome_iff_exists.mp hsome
    have hk : kv.1 = k := by simpa using List.find?_some hkv
    rw [hkv]
    simp [hk]
  · rw [if_neg h]
    unfold dget
    rw [List.find?_append]
    have hn : m.find? (fun kv => kv.1 == k) = none := by
      rw [List.find?_eq_none]
      intro x hx hk
      exact h (List.any_eq_true.mpr ⟨x, hx, hk⟩)
    simp [hn, List.find?_cons]

lemma dget_dinsert_ne (m : List (String × String)) (k v h : String) (hne : h ≠ k) :
    dget (dinsert m k v) h = dget m h := by
  unfold dinsert
  by_cases hany : m.any (fun kv => kv.1 == k) = true
  · rw [if_pos hany]
    unfold dget
    rw [List.find?_map]
    have hpred : ((fun kv : String × String => kv.1 == h) ∘
        (fun kv => if kv.1 == k then (k, v) else kv)) =
        (fun kv : String × String => kv.1 == h) := by
      funext kv
      by_cases hk : kv.1 = k
      · simp [hk, hne, fun hh : k = h => hne hh.symm]
      · simp [hk]
    rw [hpred]
    cases hf : m.find? (fun kv => kv.1 == h) with
    | none => simp
    | some kv =>
      have hkh : kv.1 = h := by simpa using List.find?_some hf
      have hkk : ¬(kv.1 = k) := by rw [hkh]; exact hne
      simp [hkk]
  · rw [if_neg hany]
    unfold dget
    rw [List.find?_append]
    have hkh : (k == h) = false := by
      simp
      exact fun hh => hne hh.symm
    have h1 : ([(k, v)].find? (fun kv => kv.1 == h)) = none := by
      simp [List.find?_cons, hkh]
    rw [h1]
    simp

lemma dget_mem_dvalues (m : List (String × String)) (h n : String)
    (hd : dget m h = some n) : n ∈ dvalues m := by
  unfold dget at hd
  cases hf : m.find? (fun kv => kv.1 == h) with
  | none => rw [hf] at hd; simp at hd
  | some kv =>
    rw [hf] at hd
    simp only [Option.map_some'] at hd
    have hmem : kv ∈ m := List.mem_of_find?_eq_some hf
    cases hd
    exact List.mem_map.mpr ⟨kv, hmem, rfl⟩

lemma nameCollides_false_not_mem (inv : List (String × String)) (f : String)
    (h : nameCollides inv f = false) : f ∉ dvalues inv := by
  unfold nameCollides at h
  intro hmem
  rw [Bool.eq_false_iff] at h
  exact h (List.any_eq_true.mpr ⟨f, hmem, by simp⟩)

/-! Lemmas about the Python string operations. -/

lemma strTruthy_iff (s : String) : strTruthy s = true ↔ s.data ≠ [] := by
  unfold strTruthy
  cases s with
  | mk l => cases l <;> simp [List.isEmpty]

lemma replaceChar_ne_nil (pat : Char) (new l : List Char)
    (hl : l ≠ []) (hnew : new ≠ []) : replaceChar pat new l ≠ [] := by
  cases l with
  | nil => exact absurd rfl hl
  | cons c rest =>
    unfold replaceChar
    by_cases hc : c = pat
    · rw [if_pos (by simp [hc])]
      rw [Ne, List.append_eq_nil]
      rintro ⟨h1, _⟩
      exact hnew h1
    · rw [if_neg (by simp [hc])]
      simp

lemma initialName_truthy (p : Photo) : strTruthy (initialName p) = true := by
  rw [strTruthy_iff]
  unfold initialName
  rw [String.data_append, String.data_append]
  simp [show ("." : String).data = ['.'] from rfl]

lemma renamed_truthy (inv : List (String × String)) (p : Photo) :
    strTruthy (renamed inv p) = true := by
  rw [strTruthy_iff]
  simp only [renamed]
  have hbase : (toString p.likes_count ++ "_" ++ p.dateStr ++ "." ++ p.file_ext).data ≠ [] := by
    rw [String.data_append, String.data_append, String.data_append]
    simp [show ("." : String).data = ['.'] from rfl]
  split
  · exact hbase
  · unfold pyReplace
    apply replaceChar_ne_nil _ _ _ hbase
    rw [String.data_append, String.data_append]
    simp [show ("(" : String).data = ['('] from rfl]

/-! Lemmas about name resolution. -/

lemma resolveLoop_post (gE yE : Bool) (gInv yInv : List (String × String)) (p : Photo) :
    ∀ fuel f out, resolveLoop gE yE gInv yInv p fuel f = some out →
      resolveOnce gE yE gInv yInv p out = none := by
  intro fuel
  induction fuel with
  | zero => intro f out h; simp [resolveLoop] at h
  | succ n ih =>
    intro f out h
    unfold resolveLoop at h
    cases hr : resolveOnce gE yE gInv yInv p f with
    | none =>
      rw [hr] at h
      cases h
      exact hr
    | some f2 =>
      rw [hr] at h
      exact ih f2 out h

lemma resolveOnce_some_shape (gE yE : Bool) (gInv yInv : List (String × String))
    (p : Photo) (f f2 : String) (h : resolveOnce gE yE gInv yInv p f = some f2) :
    f2 = renamed gInv p ∨ f2 = renamed yInv p := by
  unfold resolveOnce at h
  split at h
  · cases h; exact Or.inl rfl
  · split at h
    · cases h; exact Or.inr rfl
    · cases h

lemma resolveOnce_none_spec (gE yE : Bool) (gInv yInv : List (String × String))
    (p : Photo) (f : String) (h : resolveOnce gE yE gInv yInv p f = none) :
    (gE = true → nameCollides gInv f = false ∨ optTruthy (dget gInv p.md5) = true) ∧
    (yE = true → nameCollides yInv f = false ∨ optTruthy (dget yInv p.md5) = true) := by
  unfold resolveOnce at h
  split at h
  · cases h
  · split at h
    · cases h
    · rename_i h1 h2
      constructor
      · intro hg
        rw [hg] at h1
        by_cases hc : nameCollides gInv f = true
        · cases ht : optTruthy (dget gInv p.md5) with
          | true => exact Or.inr rfl
          | false => exact absurd (by rw [hc, ht]; rfl) h1
        · exact Or.inl (Bool.eq_false_iff.mpr hc)
      · intro hy
        rw [hy] at h2
        by_cases hc : nameCollides yInv f = true
        · cases ht : optTruthy (dget yInv p.md5) with
          | true => exact Or.inr rfl
          | false => exact absurd (by rw [hc, ht]; rfl) h2
        · exact Or.inl (Bool.eq_false_iff.mpr hc)

lemma resolveLoop_src (gE yE : Bool) (gInv yInv : List (String × String)) (p : Photo) :
    ∀ fuel f out, resolveLoop gE yE gInv yInv p fuel f = some out →
      out = f ∨ out = renamed gInv p ∨ out = renamed yInv p := by
  intro fuel
  induction fuel with
  | zero => intro f out h; simp [resolveLoop] at h
  | succ n ih =>
    intro f out h
    unfold resolveLoop at h
    cases hr : resolveOnce gE yE gInv yInv p f with
    | none =>
      rw [hr] at h
      cases h
      exact Or.inl rfl
    | some f2 =>
      rw [hr] at h
      rcases ih f2 out h with h1 | h2
      · rw [h1]
        exact resolveOnce_some_shape gE yE gInv yInv p f f2 hr |>.imp id Or.inr |>.elim
          (fun hg => Or.inr (Or.inl hg)) Or.inr
      · exact Or.inr h2

lemma resolved_truthy (gE yE : Bool) (gInv yInv : List (String × String)) (p : Photo)
    (fuel : Nat) (out : String)
    (h : resolveLoop gE yE gInv yInv p fuel (initialName p) = some out) :
    strTruthy out = true := by
  rcases resolveLoop_src gE yE gInv yInv p fuel (initialName p) out h with h1 | h2 | h3
  · rw [h1]; exact initialName_truthy p
  · rw [h2]; exact renamed_truthy gInv p
  · rw [h3]; exact renamed_truthy yInv p

/-! Lemmas about the retry loop. -/

lemma uploadLoopAux_idle (adapter : Nat → UploadOutcome) (p : Photo)
    (fname locator : String) (st : IterState)
    (h : st.ds.enabled = false ∨ optTruthy (dget st.ds.inv p.md5) = true) :
    ∀ as, (uploadLoopAux adapter p fname locator as st).st = st ∧
      (uploadLoopAux adapter p fname locator as st).calls = 0 ∧
      (uploadLoopAux adapter p fname locator as st).ups = [] := by
  intro as
  induction as with
  | nil => exact ⟨rfl, rfl, rfl⟩
  | cons a rest ih =>
    cases he : st.ds.enabled with
    | false =>
      have hr : attemptOnce (adapter a) p fname locator st = ⟨st, 0, none, []⟩ := by
        unfold attemptOnce
        rw [he]
        simp
      unfold uploadLoopAux
      rw [hr]
      refine ⟨?_, ?_, ?_⟩ <;> simp [ih.1, ih.2.1, ih.2.2]
    | true =>
      have ht : optTruthy (dget st.ds.inv p.md5) = true := by
        rcases h with he2 | ht2
        · rw [he] at he2; cases he2
        · exact ht2
      have hr : attemptOnce (adapter a) p fname locator st = ⟨st, 0, some true, []⟩ := by
        unfold attemptOnce
        rw [he, ht]
        simp
      unfold uploadLoopAux
      rw [hr]
      exact ⟨rfl, rfl, rfl⟩

lemma uploadLoopAux_ups (adapter : Nat → UploadOutcome) (p : Photo)
    (fname locator : String) (hf : strTruthy fname = true) :
    ∀ as st,
      ((uploadLoopAux adapter p fname locator as st).ups = [] ∧
        (uploadLoopAux adapter p fname locator as st).st.ds.inv = st.ds.inv) ∨
      ((uploadLoopAux adapter p fname locator as st).ups = [(p.md5, fname)] ∧
        st.ds.enabled = true ∧
        optTruthy (dget st.ds.inv p.md5) = false ∧
        (uploadLoopAux adapter p fname locator as st).st.ds.inv
          = dinsert st.ds.inv p.md5 fname) := by
  intro as
  induction as with
  | nil => intro st; exact Or.inl ⟨rfl, rfl⟩
  | cons a rest ih =>
    intro st
    cases he : st.ds.enabled with
    | false =>
      have hr : attemptOnce (adapter a) p fname locator st = ⟨st, 0, none, []⟩ := by
        unfold attemptOnce
        rw [he]
        simp
      unfold uploadLoopAux
      rw [hr]
      rcases ih st with ⟨hu, hi⟩ | ⟨hu, hen, _, _⟩
      · exact Or.inl ⟨by simpa using hu, hi⟩
      · rw [he] at hen; cases hen
    | true =>
      cases ht : optTruthy (dget st.ds.inv p.md5) with
      | true =>
        have hr : attemptOnce (adapter a) p fname locator st = ⟨st, 0, some true, []⟩ := by
          unfold attemptOnce
          rw [he, ht]
          simp
        unfold uploadLoopAux
        rw [hr]
        exact Or.inl ⟨rfl, rfl⟩
      | false =>
        cases ho : adapter a with
        | success =>
          have hrec : optTruthy (dget (dinsert st.ds.inv p.md5 fname) p.md5) = true := by
            rw [dget_dinsert_self]
            exact hf
          cases hadd : (FileList.add st.mf fname p.sizeStr p.md5 locator).2 with
          | true =>
            have hr : attemptOnce (adapter a) p fname locator st =
                ⟨⟨⟨st.ds.enabled, dinsert st.ds.inv p.md5 fname⟩, st.mf⟩, 1, none,
                  [(p.md5, fname)]⟩ := by
              unfold attemptOnce
              rw [he, ht, ho]
              simp [hadd]
            unfold uploadLoopAux
            rw [hr]
            have hidle := uploadLoopAux_idle adapter p fname locator
              ⟨⟨st.ds.enabled, dinsert st.ds.inv p.md5 fname⟩, st.mf⟩ (Or.inr hrec) rest
            refine Or.inr ⟨?_, rfl, rfl, ?_⟩
            · simp [hidle.2.2]
            · simp [hidle.1]
          | false =>
            have hr : attemptOnce (adapter a) p fname locator st =
                ⟨⟨⟨st.ds.enabled, dinsert st.ds.inv p.md5 fname⟩,
                  (FileList.add st.mf fname p.sizeStr p.md5 locator).1⟩, 1, some false,
                  [(p.md5, fname)]⟩ := by
              unfold attemptOnce
              rw [he, ht, ho]
              simp [hadd]
            unfold uploadLoopAux
            rw [hr]
            exact Or.inr ⟨rfl, rfl, rfl, rfl⟩
        | falsy =>
          have hr : attemptOnce (adapter a) p fname locator st = ⟨st, 1, none, []⟩ := by
            unfold attemptOnce
            rw [he, ht, ho]
            simp
          unfold uploadLoopAux
          rw [hr]
          rcases ih st with ⟨hu, hi⟩ | ⟨hu, hen, hth, hi⟩
          · exact Or.inl ⟨by simpa using hu, hi⟩
          · exact Or.inr ⟨by simpa using hu, rfl, rfl, hi⟩
        | quotaExceeded =>
          have hr : attemptOnce (adapter a) p fname locator st =
              ⟨⟨⟨false, st.ds.inv⟩, st.mf⟩, 1, none, []⟩ := by
            unfold attemptOnce
            rw [he, ht, ho]
            simp
          unfold uploadLoopAux
          rw [hr]
          rcases ih ⟨⟨false, st.ds.inv⟩, st.mf⟩ with ⟨hu, hi⟩ | ⟨hu, hen, _, _⟩
          · exact Or.inl ⟨by simpa using hu, hi⟩
          · cases hen
        | transientError =>
          have hr : attemptOnce (adapter a) p fname locator st = ⟨st, 1, none, []⟩ := by
            unfold attemptOnce
            rw [he, ht, ho]
            simp
          unfold uploadLoopAux
          rw [hr]
          rcases ih st with ⟨hu, hi⟩ | ⟨hu, hen, hth, hi⟩
          · exact Or.inl ⟨by simpa using hu, hi⟩
          · exact Or.inr ⟨by simpa using hu, rfl, rfl, hi⟩

/-! Per-item upload-trace lemmas. -/

lemma processItem_g_ups (bhv : Behavior) (fuel : Nat) (gp yp : String) (st : RunState)
    (p : Photo) (o : ItemOut) (h : processItem bhv fuel gp yp st p = some o) :
    (o.gups = [] ∧ o.st.g.inv = st.g.inv) ∨
    (∃ fname, o.gups = [(p.md5, fname)] ∧ strTruthy fname = true ∧
      optTruthy (dget st.g.inv p.md5) = false ∧ nameCollides st.g.inv fname = false ∧
      o.st.g.inv = dinsert st.g.inv p.md5 fname) := by
  unfold processItem at h
  cases hres : resolveLoop st.g.enabled st.y.enabled st.g.inv st.y.inv p fuel
      (initialName p) with
  | none => rw [hres] at h; cases h
  | some fname =>
    rw [hres] at h
    have hf : strTruthy fname = true :=
      resolved_truthy st.g.enabled st.y.enabled st.g.inv st.y.inv p fuel fname hres
    injection h with h2
    subst h2
    rcases uploadLoopAux_ups (bhv.gAdapter p) p fname (gLocator gp) hf [0, 1, 2]
        ⟨st.g, st.mf⟩ with ⟨hu, hi⟩ | ⟨hu, hen, hth, hi⟩
    · exact Or.inl ⟨hu, hi⟩
    · have hpost := resolveOnce_none_spec st.g.enabled st.y.enabled st.g.inv st.y.inv p
        fname (resolveLoop_post st.g.enabled st.y.enabled st.g.inv st.y.inv p fuel
          (initialName p) fname hres)
      have hcol : nameCollides st.g.inv fname = false :=
        Or.resolve_right (hpost.1 hen) (by simp [hth])
      exact Or.inr ⟨fname, hu, hf, hth, hcol, hi⟩

lemma processItem_y_ups (bhv : Behavior) (fuel : Nat) (gp yp : String) (st : RunState)
    (p : Photo) (o : ItemOut) (h : processItem bhv fuel gp yp st p = some o) :
    (o.yups = [] ∧ o.st.y.inv = st.y.inv) ∨
    (∃ fname, o.yups = [(p.md5, fname)] ∧ strTruthy fname = true ∧
      optTruthy (dget st.y.inv p.md5) = false ∧ nameCollides st.y.inv fname = false ∧
      o.st.y.inv = dinsert st.y.inv p.md5 fname) := by
  unfold processItem at h
  cases hres : resolveLoop st.g.enabled st.y.enabled st.g.inv st.y.inv p fuel
      (initialName p) with
  | none => rw [hres] at h; cases h
  | some fname =>
    rw [hres] at h
    have hf : strTruthy fname = true :=
      resolved_truthy st.g.enabled st.y.enabled st.g.inv st.y.inv p fuel fname hres
    injection h with h2
    subst h2
    rcases uploadLoopAux_ups (bhv.yAdapter p) p fname (yLocator yp) hf [0, 1, 2]
        ⟨st.y, (uploadLoop (bhv.gAdapter p) p fname (gLocator gp) ⟨st.g, st.mf⟩).st.mf⟩
        with ⟨hu, hi⟩ | ⟨hu, hen, hth, hi⟩
    · exact Or.inl ⟨hu, hi⟩
    · have hpost := resolveOnce_none_spec st.g.enabled st.y.enabled st.g.inv st.y.inv p
        fname (resolveLoop_post st.g.enabled st.y.enabled st.g.inv st.y.inv p fuel
          (initialName p) fname hres)
      have hcol : nameCollides st.y.inv fname = false :=
        Or.resolve_right (hpost.2 hen) (by simp [hth])
      exact Or.inr ⟨fname, hu, hf, hth, hcol, hi⟩

/-! Run-level upload-trace invariant. -/

/-- Every recorded upload (hash, name) has a truthy name and is still
present in the inventory dict. -/
def UpsOk (acc : List (String × String)) (inv : List (String × String)) : Prop :=
  ∀ hn ∈ acc, strTruthy hn.2 = true ∧ dget inv hn.1 = some hn.2

/-- Pairwise distinct hashes and pairwise distinct names. -/
def UpsDistinct (l : List (String × String)) : Prop :=
  List.Pairwise (fun a b => a.1 ≠ b.1 ∧ a.2 ≠ b.2) l

lemma upsOk_step (inv : List (String × String)) (acc : List (String × String))
    (h n : String) (hOk : UpsOk acc inv) (hTr : strTruthy n = true)
    (hth : optTruthy (dget inv h) = false) (hcol : nameCollides inv n = false) :
    UpsOk (acc ++ [(h, n)]) (dinsert inv h n) ∧
    (UpsDistinct acc → UpsDistinct (acc ++ [(h, n)])) := by
  have hne : ∀ hn ∈ acc, hn.1 ≠ h ∧ hn.2 ≠ n := by
    intro hn hmem
    obtain ⟨htr2, hd⟩ := hOk hn hmem
    constructor
    · intro heq
      rw [heq] at hd
      rw [hd] at hth
      simp only [optTruthy] at hth
      rw [htr2] at hth
      cases hth
    · intro heq
      exact nameCollides_false_not_mem inv n hcol
        (heq ▸ dget_mem_dvalues inv hn.1 hn.2 hd)
  constructor
  · intro hn hmem
    rcases List.mem_append.mp hmem with hm | hm
    · obtain ⟨htr2, hd⟩ := hOk hn hm
      refine ⟨htr2, ?_⟩
      rw [dget_dinsert_ne inv h n hn.1 (hne hn hm).1]
      exact hd
    · have hm2 : hn = (h, n) := by simpa using hm
      subst hm2
      exact ⟨hTr, dget_dinsert_self inv h n⟩
  · intro hdist
    rw [UpsDistinct, List.pairwise_append]
    refine ⟨hdist, List.pairwise_singleton _ _, ?_⟩
    intro a ha b hb
    have hb2 : b = (h, n) := by simpa using hb
    subst hb2
    exact hne a ha

lemma processAll_g_inv (bhv : Behavior) (fuel : Nat) (gp yp : String) :
    ∀ ps (st : RunState) (ro : RunOut) (acc : List (String × String)),
      processAll bhv fuel gp yp st ps = some ro →
      UpsOk acc st.g.inv → UpsDistinct acc →
      UpsDistinct (acc ++ ro.gups) ∧ UpsOk (acc ++ ro.gups) ro.st.g.inv := by
  intro ps
  induction ps with
  | nil =>
    intro st ro acc h hOk hD
    unfold processAll at h
    injection h with h2
    subst h2
    simpa using ⟨hD, hOk⟩
  | cons p ps ih =>
    intro st ro acc h hOk hD
    unfold processAll at h
    cases hi : processItem bhv fuel gp yp st p with
    | none => rw [hi] at h; cases h
    | some o =>
      rw [hi] at h
      dsimp only at h
      cases hr : processAll bhv fuel gp yp o.st ps with
      | none => rw [hr] at h; cases h
      | some ro2 =>
        rw [hr] at h
        injection h with h2
        subst h2
        rcases processItem_g_ups bhv fuel gp yp st p o hi with
          ⟨hu, hinv⟩ | ⟨fname, hu, htr, hth, hcol, hinv⟩
        · have hrec := ih o.st ro2 acc hr (by rw [hinv]; exact hOk) hD
          rw [hu]
          simpa using hrec
        · obtain ⟨hOk2, hDf⟩ := upsOk_step st.g.inv acc p.md5 fname hOk htr hth hcol
          have hrec := ih o.st ro2 (acc ++ [(p.md5, fname)]) hr
            (by rw [hinv]; exact hOk2) (hDf hD)
          rw [hu]
          constructor
          · have := hrec.1
            rw [List.append_assoc] at this
            simpa using this
          · have := hrec.2
            rw [List.append_assoc] at this
            simpa using this

lemma processAll_y_inv (bhv : Behavior) (fuel : Nat) (gp yp : String) :
    ∀ ps (st : RunState) (ro : RunOut) (acc : List (String × String)),
      processAll bhv fuel gp yp st ps = some ro →
      UpsOk acc st.y.inv → UpsDistinct acc →
      UpsDistinct (acc ++ ro.yups) ∧ UpsOk (acc ++ ro.yups) ro.st.y.inv := by
  intro ps
  induction ps with
  | nil =>
    intro st ro acc h hOk hD
    unfold processAll at h
    injection h with h2
    subst h2
    simpa using ⟨hD, hOk⟩
  | cons p ps ih =>
    intro st ro acc h hOk hD
    unfold processAll at h
    cases hi : processItem bhv fuel gp yp st p with
    | none => rw [hi] at h; cases h
    | some o =>
      rw [hi] at h
      dsimp only at h
      cases hr : processAll bhv fuel gp yp o.st ps with
      | none => rw [hr] at h; cases h
      | some ro2 =>
        rw [hr] at h
        injection h with h2
        subst h2
        rcases processItem_y_ups bhv fuel gp yp st p o hi with
          ⟨hu, hinv⟩ | ⟨fname, hu, htr, hth, hcol, hinv⟩
        · have hrec := ih o.st ro2 acc hr (by rw [hinv]; exact hOk) hD
          rw [hu]
          simpa using hrec
        · obtain ⟨hOk2, hDf⟩ := upsOk_step st.y.inv acc p.md5 fname hOk htr hth hcol
          have hrec := ih o.st ro2 (acc ++ [(p.md5, fname)]) hr
            (by rw [hinv]; exact hOk2) (hDf hD)
          rw [hu]
          constructor
          · have := hrec.1
            rw [List.append_assoc] at this
            simpa using this
          · have := hrec.2
            rw [List.append_assoc] at this
            simpa using this

/-! Manifest lemmas. -/

lemma get_decomp (key disk : String) :
    ∀ (items : List FileEntry) (e : FileEntry), FileList.get items key = some e →
      ∃ pre post, items = pre ++ e :: post ∧
        (∀ x ∈ pre, (x.file_name == key || x.checksum == key) = false) ∧
        FileList.appendDiskAt key disk items
          = pre ++ ({ e with disks := e.disks ++ [disk] } : FileEntry) :: post := by
  intro items
  induction items with
  | nil => intro e h; simp [FileList.get] at h
  | cons it rest ih =>
    intro e h
    unfold FileList.get at h
    rw [List.find?_cons] at h
    cases hp : (it.file_name == key || it.checksum == key) with
    | true =>
      rw [hp] at h
      dsimp only at h
      injection h with h2
      subst h2
      refine ⟨[], rest, rfl, by simp, ?_⟩
      unfold FileList.appendDiskAt
      rw [if_pos hp]
      rfl
    | false =>
      rw [hp] at h
      dsimp only at h
      obtain ⟨pre, post, heq, hpre, happ⟩ := ih e h
      refine ⟨it :: pre, post, by rw [heq]; rfl, ?_, ?_⟩
      · intro x hx
        rcases List.mem_cons.mp hx with h1 | h1
        · rw [h1]; exact hp
        · exact hpre x h1
      · unfold FileList.appendDiskAt
        rw [if_neg (by simp [hp])]
        rw [happ]
        simp

lemma add_eq_found (items : List FileEntry) (name sz cks disk : String) (e : FileEntry)
    (hn : FileList.get items name = some e) :
    FileList.add items name sz cks disk =
      if disk ∈ e.disks then (items, true)
      else (FileList.appendDiskAt name disk items, false) := by
  unfold FileList.add
  rw [hn]

lemma add_eq_cks (items : List FileEntry) (name sz cks disk : String) (e : FileEntry)
    (hn : FileList.get items name = none) (hc : FileList.get items cks = some e) :
    FileList.add items name sz cks disk =
      if disk ∈ e.disks then (items, true)
      else (FileList.appendDiskAt cks disk items, false) := by
  unfold FileList.add
  rw [hn, hc]

lemma add_eq_new (items : List FileEntry) (name sz cks disk : String)
    (hn : FileList.get items name = none) (hc : FileList.get items cks = none) :
    FileList.add items name sz cks disk = (items ++ [⟨name, sz, cks, [disk]⟩], false) := by
  unfold FileList.add
  rw [hn, hc]

lemma lookup2_eq_name (items : List FileEntry) (name cks : String) (e : FileEntry)
    (hn : FileList.get items name = some e) :
    FileList.lookup2 items name cks = some e := by
  unfold FileList.lookup2
  rw [hn]

lemma lookup2_eq_cks (items : List FileEntry) (name cks : String)
    (hn : FileList.get items name = none) :
    FileList.lookup2 items name cks = FileList.get items cks := by
  unfold FileList.lookup2
  rw [hn]

/-! Claim C4 and C10 theorems. -/

/-- C4: Manifest add(name, size, checksum, disk): when an existing entry
matches the name or the checksum, (a) a locator not yet in that entry's
disks list is appended to exactly that entry and no error is raised, and
(b) a locator already present raises FileAlreadyExistInFileList and no
second entry is created; when no entry matches, exactly one new entry is
created.  Concretely, adding (5.jpg, abc, A) then (5.jpg, abc, B) yields
one entry with disks [A, B], and adding the identical triple again
raises without changing the entry list. -/
theorem claim_C4_manifest_merge :
    (∀ (items : List FileEntry) (name sz cks disk : String) (e : FileEntry),
       FileList.lookup2 items name cks = some e → disk ∉ e.disks →
       (FileList.add items name sz cks disk).2 = false ∧
       ∃ pre post, items = pre ++ e :: post ∧
         (FileList.add items name sz cks disk).1
           = pre ++ ({ e with disks := e.disks ++ [disk] } : FileEntry) :: post) ∧
    (∀ (items : List FileEntry) (name sz cks disk : String) (e : FileEntry),
       FileList.lookup2 items name cks = some e → disk ∈ e.disks →
       FileList.add items name sz cks disk = (items, true)) ∧
    (∀ (items : List FileEntry) (name sz cks disk : String),
       FileList.lookup2 items name cks = none →
       FileList.add items name sz cks disk = (items ++ [⟨name, sz, cks, [disk]⟩], false)) ∧
    ((FileList.add ((FileList.add [] "5.jpg" "sz" "abc" "A").1) "5.jpg" "sz" "abc" "B").1
       = [⟨"5.jpg", "sz", "abc", ["A", "B"]⟩] ∧
     FileList.add [⟨"5.jpg", "sz", "abc", ["A", "B"]⟩] "5.jpg" "sz" "abc" "B"
       = ([⟨"5.jpg", "sz", "abc", ["A", "B"]⟩], true)) := by
  refine ⟨?_, ?_, ?_, by decide, by decide⟩
  · intro items name sz cks disk e hl hd
    cases hn : FileList.get items name with
    | some e0 =>
      rw [lookup2_eq_name items name cks e0 hn] at hl
      cases Option.some.inj hl
      rw [add_eq_found items name sz cks disk e hn, if_neg hd]
      obtain ⟨pre, post, heq, _, happ⟩ := get_decomp name disk items e hn
      exact ⟨rfl, pre, post, heq, happ⟩
    | none =>
      rw [lookup2_eq_cks items name cks hn] at hl
      rw [add_eq_cks items name sz cks disk e hn hl, if_neg hd]
      obtain ⟨pre, post, heq, _, happ⟩ := get_decomp cks disk items e hl
      exact ⟨rfl, pre, post, heq, happ⟩
  · intro items name sz cks disk e hl hd
    cases hn : FileList.get items name with
    | some e0 =>
      rw [lookup2_eq_name items name cks e0 hn] at hl
      cases Option.some.inj hl
      rw [add_eq_found items name sz cks disk e hn, if_pos hd]
    | none =>
      rw [lookup2_eq_cks items name cks hn] at hl
      rw [add_eq_cks items name sz cks disk e hn hl, if_pos hd]
  · intro items name sz cks disk hl
    cases hn : FileList.get items name with
    | some e0 =>
      rw [lookup2_eq_name items name cks e0 hn] at hl
      cases hl
    | none =>
      rw [lookup2_eq_cks items name cks hn] at hl
      exact add_eq_new items name sz cks disk hn hl

/-- Witness for C4: branch (b) and the fresh-entry branch at concrete
inputs. -/
theorem claim_C4_manifest_merge_witness :
    FileList.add [⟨"5.jpg", "sz", "abc", ["A", "B"]⟩] "5.jpg" "sz" "abc" "B"
      = ([⟨"5.jpg", "sz", "abc", ["A", "B"]⟩], true) ∧
    FileList.add [] "5.jpg" "sz" "abc" "A" = ([⟨"5.jpg", "sz", "abc", ["A"]⟩], false) :=
  ⟨claim_C4_manifest_merge.2.1 _ "5.jpg" "sz" "abc" "B"
      ⟨"5.jpg", "sz", "abc", ["A", "B"]⟩ (by decide) (by decide),
   claim_C4_manifest_merge.2.2.1 [] "5.jpg" "sz" "abc" "A" (by decide)⟩

/-- C10: FileList.add raises FileAlreadyExistInFileList iff the entry
found by name-or-checksum lookup already contains the disk locator; when
it raises the entry list is unchanged; and every non-raising call either
appends exactly one new entry or appends the locator to exactly one
existing entry. -/
theorem claim_C10_manifest_add_atomic :
    ∀ (items : List FileEntry) (name sz cks disk : String),
      ((FileList.add items name sz cks disk).2 = true ↔
        ∃ e, FileList.lookup2 items name cks = some e ∧ disk ∈ e.disks) ∧
      ((FileList.add items name sz cks disk).2 = true →
        (FileList.add items name sz cks disk).1 = items) ∧
      ((FileList.add items name sz cks disk).2 = false →
        (FileList.lookup2 items name cks = none ∧
          (FileList.add items name sz cks disk).1 = items ++ [⟨name, sz, cks, [disk]⟩]) ∨
        (∃ pre e post, FileList.lookup2 items name cks = some e ∧ disk ∉ e.disks ∧
          items = pre ++ e :: post ∧
          (FileList.add items name sz cks disk).1
            = pre ++ ({ e with disks := e.disks ++ [disk] } : FileEntry) :: post)) := by
  intro items name sz cks disk
  cases hn : FileList.get items name with
  | some e0 =>
    have hl := lookup2_eq_name items name cks e0 hn
    by_cases hd : disk ∈ e0.disks
    · rw [add_eq_found items name sz cks disk e0 hn, if_pos hd]
      exact ⟨⟨fun _ => ⟨e0, hl, hd⟩, fun _ => rfl⟩, fun _ => rfl, fun hc => by simp at hc⟩
    · rw [add_eq_found items name sz cks disk e0 hn, if_neg hd]
      obtain ⟨pre, post, heq, _, happ⟩ := get_decomp name disk items e0 hn
      refine ⟨⟨fun hc => by simp at hc, ?_⟩, fun hc => by simp at hc,
        fun _ => Or.inr ⟨pre, e0, post, hl, hd, heq, happ⟩⟩
      rintro ⟨e, hle, hde⟩
      rw [hl] at hle
      cases Option.some.inj hle
      exact absurd hde hd
  | none =>
    have hl2 := lookup2_eq_cks items name cks hn
    cases hc2 : FileList.get items cks with
    | some e0 =>
      have hl : FileList.lookup2 items name cks = some e0 := by rw [hl2, hc2]
      by_cases hd : disk ∈ e0.disks
      · rw [add_eq_cks items name sz cks disk e0 hn hc2, if_pos hd]
        exact ⟨⟨fun _ => ⟨e0, hl, hd⟩, fun _ => rfl⟩, fun _ => rfl, fun hc => by simp at hc⟩
      · rw [add_eq_cks items name sz cks disk e0 hn hc2, if_neg hd]
        obtain ⟨pre, post, heq, _, happ⟩ := get_decomp cks disk items e0 hc2
        refine ⟨⟨fun hc => by simp at hc, ?_⟩, fun hc => by simp at hc,
          fun _ => Or.inr ⟨pre, e0, post, hl, hd, heq, happ⟩⟩
        rintro ⟨e, hle, hde⟩
        rw [hl] at hle
        cases Option.some.inj hle
        exact absurd hde hd
    | none =>
      have hl : FileList.lookup2 items name cks = none := by rw [hl2, hc2]
      rw [add_eq_new items name sz cks disk hn hc2]
      refine ⟨⟨fun hc => by simp at hc, ?_⟩, fun hc => by simp at hc,
        fun _ => Or.inl ⟨hl, rfl⟩⟩
      rintro ⟨e, hle, _⟩
      rw [hl] at hle
      cases hle

/-- Witness for C10: the raise case and the unchanged-list conclusion at
a concrete input. -/
theorem claim_C10_manifest_add_atomic_witness :
    (FileList.add [⟨"a.jpg", "sz", "c1", ["A"]⟩] "a.jpg" "sz" "c1" "A").2 = true ∧
    (FileList.add [⟨"a.jpg", "sz", "c1", ["A"]⟩] "a.jpg" "sz" "c1" "A").1
      = [⟨"a.jpg", "sz", "c1", ["A"]⟩] :=
  ⟨(claim_C10_manifest_add_atomic [⟨"a.jpg", "sz", "c1", ["A"]⟩] "a.jpg" "sz" "c1" "A").1.mpr
      ⟨⟨"a.jpg", "sz", "c1", ["A"]⟩, by decide, by decide⟩,
   (claim_C10_manifest_add_atomic [⟨"a.jpg", "sz", "c1", ["A"]⟩] "a.jpg" "sz" "c1" "A").2.1
      (by decide)⟩

/-! Claim C9: inventory build on duplicate hashes. -/

lemma dget_foldl_keep (h n : String) :
    ∀ (l m : List (String × String)),
      (∀ hn ∈ l, hn.1 ≠ h) → dget m h = some n →
      dget (l.foldl (fun acc hn => dinsert acc hn.1 hn.2) m) h = some n := by
  intro l
  induction l with
  | nil => intro m _ hm; exact hm
  | cons a t ih =>
    intro m hne hm
    simp only [List.foldl_cons]
    apply ih
    · intro hn hmem
      exact hne hn (List.mem_cons_of_mem a hmem)
    · rw [dget_dinsert_ne m a.1 a.2 h (Ne.symm (hne a (List.mem_cons_self a t)))]
      exact hm

lemma dkeys_map_replace (k v : String) :
    ∀ m : List (String × String),
      (m.map (fun kv => if kv.1 == k then (k, v) else kv)).map (fun kv => kv.1)
        = m.map (fun kv => kv.1) := by
  intro m
  induction m with
  | nil => rfl
  | cons a t ih =>
    simp only [List.map_cons]
    by_cases ha : a.1 = k
    · rw [if_pos (by simp [ha]), ih, ha]
    · rw [if_neg (by simp [ha]), ih]

lemma dkeys_nodup_aux :
    ∀ (l m : List (String × String)), (m.map (fun kv => kv.1)).Nodup →
      ((l.foldl (fun acc hn => dinsert acc hn.1 hn.2) m).map (fun kv => kv.1)).Nodup := by
  intro l
  induction l with
  | nil => intro m hm; exact hm
  | cons a t ih =>
    intro m hm
    simp only [List.foldl_cons]
    apply ih
    unfold dinsert
    split
    · rw [dkeys_map_replace]
      exact hm
    · rename_i hany
      rw [List.map_append, List.nodup_append]
      refine ⟨hm, List.nodup_singleton _, ?_⟩
      intro x hx hx2
      obtain ⟨kv, hkv, hx3⟩ := List.mem_map.mp hx
      have hxa : x = a.1 := by simpa using hx2
      exact hany (List.any_eq_true.mpr ⟨kv, hkv, by simp [hx3, hxa]⟩)

/-- C9 counterexample: building the inventory from a listing with two
entries of hash h named a then b records b — the LAST occurrence wins,
refuting first-occurrence-wins. -/
theorem claim_C9_counterexample :
    dget (buildInventory [("h", "a"), ("h", "b")]) "h" = some "b" ∧
    dget (buildInventory [("h", "a"), ("h", "b")]) "h" ≠ some "a" :=
  ⟨by decide, by decide⟩

/-- C9 amended: the inventory build records at most one name per hash
(the key list has no duplicates), and on duplicate hashes the LAST
occurrence in the listing wins. -/
theorem claim_C9_build_inventory :
    (∀ listing : List (String × String),
       ((buildInventory listing).map (fun kv => kv.1)).Nodup) ∧
    (∀ (l1 l2 : List (String × String)) (h n : String),
       (∀ hn ∈ l2, hn.1 ≠ h) →
       dget (buildInventory (l1 ++ (h, n) :: l2)) h = some n) := by
  constructor
  · intro listing
    exact dkeys_nodup_aux listing [] (by simp)
  · intro l1 l2 h n hne
    unfold buildInventory
    rw [List.foldl_append, List.foldl_cons]
    exact dget_foldl_keep h n l2 _ hne (dget_dinsert_self _ h n)

/-- Witness for C9 at a concrete duplicated listing. -/
theorem claim_C9_build_inventory_witness :
    ((buildInventory [("h", "a"), ("h", "b")]).map (fun kv => kv.1)).Nodup ∧
    dget (buildInventory ([("h", "a")] ++ ("h", "b") :: [])) "h" = some "b" :=
  ⟨claim_C9_build_inventory.1 [("h", "a"), ("h", "b")],
   claim_C9_build_inventory.2 [("h", "a")] [] "h" "b" (by simp)⟩

/-! Claim C8: the name-resolution loop is unbounded and can diverge. -/

/-- The item on which the source's name-resolution loop runs forever
against gInvDiverge. -/
def photoDiverge : Photo := ⟨10, "2021-05-03", "jpg", "h3", "sz"⟩

/-- A pre-seeded Google inventory containing the names 10.jpg and
10_2021-05-03(1).jpg: the rename step maps the candidate to itself. -/
def gInvDiverge : List (String × String) :=
  [("h1", "10.jpg"), ("h2", "10_2021-05-03(1).jpg")]

/-- C8: the claim requires the name-resolution loop to terminate within
a bounded ceiling and fail with NameExhausted beyond it; the source loop
has no ceiling and no NameExhausted, and on this inventory it never
finishes: for every fuel the loop is still running. -/
theorem claim_C8_resolution_diverges :
    ∀ fuel : Nat,
      resolveLoop true false gInvDiverge [] photoDiverge fuel (initialName photoDiverge)
        = none := by
  have hfix : ∀ n, resolveLoop true false gInvDiverge [] photoDiverge n
      "10_2021-05-03(1).jpg" = none := by
    intro n
    induction n with
    | zero => rfl
    | succ k ihk =>
      have hstep : resolveOnce true false gInvDiverge [] photoDiverge
          "10_2021-05-03(1).jpg" = some "10_2021-05-03(1).jpg" := by decide
      unfold resolveLoop
      rw [hstep]
      exact ihk
  intro fuel
  cases fuel with
  | zero => rfl
  | succ k =>
    have hstep : resolveOnce true false gInvDiverge [] photoDiverge
        (initialName photoDiverge) = some "10_2021-05-03(1).jpg" := by decide
    unfold resolveLoop
    rw [hstep]
    exact hfix k

/-! Claim C6: shape of the renamed candidate and the naming scenario. -/

lemma str_eq_of_data (s t : String) (h : s.data = t.data) : s = t := by
  cases s
  cases t
  cases h
  rfl

lemma replaceChar_cons (pat : Char) (new : List Char) (c : Char) (l : List Char) :
    replaceChar pat new (c :: l)
      = if c == pat then new ++ replaceChar pat new l else c :: replaceChar pat new l := rfl

lemma replaceChar_not_mem (pat : Char) (new : List Char) :
    ∀ l, pat ∉ l → replaceChar pat new l = l := by
  intro l
  induction l with
  | nil => intro _; rfl
  | cons c rest ih =>
    intro h
    have hc : ¬(c = pat) := fun hq => h (by rw [hq]; exact List.mem_cons_self pat rest)
    rw [replaceChar_cons, if_neg (by simp [hc]), ih (fun hm => h (List.mem_cons_of_mem c hm))]

lemma replaceChar_append_left (pat : Char) (new : List Char) :
    ∀ A B, pat ∉ A → replaceChar pat new (A ++ B) = A ++ replaceChar pat new B := by
  intro A
  induction A with
  | nil => intro B _; rfl
  | cons c rest ih =>
    intro B h
    have hc : ¬(c = pat) := fun hq => h (by rw [hq]; exact List.mem_cons_self pat rest)
    simp only [List.cons_append]
    rw [replaceChar_cons, if_neg (by simp [hc]), ih B (fun hm => h (List.mem_cons_of_mem c hm))]

lemma replaceChar_self_cons (pat : Char) (new l : List Char) :
    replaceChar pat new (pat :: l) = new ++ replaceChar pat new l := by
  rw [replaceChar_cons, if_pos (by simp)]

lemma replace_base (new ld dd ed : List Char) (h1 : '.' ∉ ld) (h2 : '.' ∉ dd)
    (h3 : '.' ∉ ed) :
    replaceChar '.' new ((((ld ++ ['_']) ++ dd) ++ ['.']) ++ ed)
      = (((ld ++ ['_']) ++ dd) ++ new) ++ ed := by
  have hA : '.' ∉ (ld ++ ['_']) ++ dd := by
    intro hm
    rcases List.mem_append.mp hm with hm1 | hm1
    · rcases List.mem_append.mp hm1 with hm2 | hm2
      · exact h1 hm2
      · simp at hm2
    · exact h2 hm1
  rw [show (((ld ++ ['_']) ++ dd) ++ ['.']) ++ ed = ((ld ++ ['_']) ++ dd) ++ ('.' :: ed) by
    simp [List.append_assoc]]
  rw [replaceChar_append_left '.' new _ _ hA]
  rw [replaceChar_self_cons]
  rw [replaceChar_not_mem '.' new ed h3]
  simp [List.append_assoc]

/-- C6: on a collision with different content the rename step produces
disambiguator_isoDate.extension, and when the count i of existing names
starting with the disambiguator and an underscore is positive, (i) is
inserted immediately before the extension; processing the disambiguators
[10, 10, 7] with distinct checksums and extension jpg against a single
destination with an empty inventory yields the chosen names 10.jpg,
10_date2.jpg and 7.jpg in that order. -/
theorem claim_C6_rename_and_scenario :
    (∀ (inv : List (String × String)) (p : Photo),
       (dvalues inv).countP (fun s => pyStartsWith s (toString p.likes_count ++ "_")) = 0 →
       renamed inv p = toString p.likes_count ++ "_" ++ p.dateStr ++ "." ++ p.file_ext) ∧
    (∀ (inv : List (String × String)) (p : Photo) (i : Nat),
       (dvalues inv).countP (fun s => pyStartsWith s (toString p.likes_count ++ "_")) = i →
       i ≠ 0 →
       ('.' ∉ (toString p.likes_count).data) → ('.' ∉ p.dateStr.data) →
       ('.' ∉ p.file_ext.data) →
       renamed inv p = toString p.likes_count ++ "_" ++ p.dateStr ++ "("
         ++ toString i ++ ")." ++ p.file_ext) ∧
    ((processAll ⟨fun _ _ => .success, fun _ _ => .success⟩ 5 "gp" "yp"
        ⟨⟨true, []⟩, ⟨false, []⟩, []⟩
        [⟨10, "2021-05-01", "jpg", "c1", "s1"⟩, ⟨10, "2021-05-03", "jpg", "c2", "s2"⟩,
         ⟨7, "2021-05-05", "jpg", "c3", "s3"⟩]).map (fun ro => ro.gups.map (fun hn => hn.2))
      = some ["10.jpg", "10_2021-05-03.jpg", "7.jpg"]) := by
  refine ⟨?_, ?_, by decide⟩
  · intro inv p hcount
    simp only [renamed, hcount]
    norm_num
  · intro inv p i hcount hi hld hdd hed
    simp only [renamed, hcount]
    rw [if_neg (by simpa using hi)]
    apply str_eq_of_data
    show replaceChar '.' ("(" ++ toString i ++ ").").data
        (toString p.likes_count ++ "_" ++ p.dateStr ++ "." ++ p.file_ext).data = _
    have hdata : (toString p.likes_count ++ "_" ++ p.dateStr ++ "." ++ p.file_ext).data
        = ((((toString p.likes_count).data ++ ['_']) ++ p.dateStr.data) ++ ['.'])
          ++ p.file_ext.data := by
      simp only [String.data_append]
    rw [hdata, replace_base _ _ _ _ hld hdd hed]
    simp only [String.data_append]
    simp [List.append_assoc, show ("(" : String).data = ['('] from rfl,
      show (")." : String).data = [')', '.'] from rfl,
      show ("_" : String).data = ['_'] from rfl]

/-- Witness for C6 at a concrete inventory and item. -/
theorem claim_C6_rename_and_scenario_witness :
    renamed [("h1", "10.jpg")] ⟨10, "2021-05-03", "jpg", "h2", "s"⟩
      = "10_2021-05-03.jpg" ∧
    renamed [("h1", "10.jpg"), ("h2", "10_x.jpg")] ⟨10, "2021-05-03", "jpg", "h3", "s"⟩
      = "10_2021-05-03(1).jpg" := by
  constructor
  · have h := claim_C6_rename_and_scenario.1 [("h1", "10.jpg")]
      ⟨10, "2021-05-03", "jpg", "h2", "s"⟩ (by decide)
    rw [h]
    decide
  · have h := claim_C6_rename_and_scenario.2.1 [("h1", "10.jpg"), ("h2", "10_x.jpg")]
      ⟨10, "2021-05-03", "jpg", "h3", "s"⟩ 1 (by decide) (by decide) (by decide)
      (by decide) (by decide)
    rw [h]
    decide

/-! Concrete run used by several witnesses. -/

/-- Adapters that always succeed. -/
def bhvAllSuccess : Behavior := ⟨fun _ _ => .success, fun _ _ => .success⟩

def photoA : Photo := ⟨10, "2021-05-01", "jpg", "c1", "s1"⟩

def photoB : Photo := ⟨10, "2021-05-03", "jpg", "c2", "s2"⟩

def photoC : Photo := ⟨7, "2021-05-05", "jpg", "c3", "s3"⟩

/-- Google enabled with empty inventory, Yandex disabled, empty
manifest. -/
def runStart : RunState := ⟨⟨true, []⟩, ⟨false, []⟩, []⟩

/-- The run output of processing photoA, photoB, photoC from runStart
with always-succeeding adapters. -/
def runOutC : RunOut :=
  ⟨⟨⟨true, [("c1", "10.jpg"), ("c2", "10_2021-05-03.jpg"), ("c3", "7.jpg")]⟩,
    ⟨false, []⟩,
    [⟨"10.jpg", "s1", "c1", ["google:/gp"]⟩,
     ⟨"10_2021-05-03.jpg", "s2", "c2", ["google:/gp"]⟩,
     ⟨"7.jpg", "s3", "c3", ["google:/gp"]⟩]⟩,
   [1, 1, 1], [0, 0, 0],
   [("c1", "10.jpg"), ("c2", "10_2021-05-03.jpg"), ("c3", "7.jpg")], []⟩

/-! Claim C5: name uniqueness per destination. -/

/-- C5: in any run, per destination, the uploaded (hash, name) trace is
injective: two uploads with different checksums to the same destination
never share a name (the name recorded in the in-memory inventory right
after a successful upload stays visible to every later collision
check). -/
theorem claim_C5_name_uniqueness (bhv : Behavior) (fuel : Nat) (gp yp : String)
    (st : RunState) (ps : List Photo) (ro : RunOut)
    (h : processAll bhv fuel gp yp st ps = some ro) :
    List.Pairwise (fun a b : String × String => a.1 ≠ b.1 → a.2 ≠ b.2) ro.gups ∧
    List.Pairwise (fun a b : String × String => a.1 ≠ b.1 → a.2 ≠ b.2) ro.yups := by
  constructor
  · have hg := processAll_g_inv bhv fuel gp yp ps st ro [] h
      (by intro hn hm; exact absurd hm (List.not_mem_nil hn)) List.Pairwise.nil
    have hd := hg.1
    simp only [List.nil_append] at hd
    exact hd.imp fun hab _ => hab.2
  · have hy := processAll_y_inv bhv fuel gp yp ps st ro [] h
      (by intro hn hm; exact absurd hm (List.not_mem_nil hn)) List.Pairwise.nil
    have hd := hy.1
    simp only [List.nil_append] at hd
    exact hd.imp fun hab _ => hab.2

/-- Witness for C5 on the concrete three-photo run. -/
theorem claim_C5_name_uniqueness_witness :
    List.Pairwise (fun a b : String × String => a.1 ≠ b.1 → a.2 ≠ b.2) runOutC.gups ∧
    List.Pairwise (fun a b : String × String => a.1 ≠ b.1 → a.2 ≠ b.2) runOutC.yups :=
  claim_C5_name_uniqueness bhvAllSuccess 5 "gp" "yp" runStart [photoA, photoB, photoC]
    runOutC (by decide)

/-! Claim C1: skip on known checksum, never a second upload. -/

/-- C1: when a destination's inventory already holds the item's content
hash, the retry loop ends SKIPPED immediately: no adapter upload call,
destination state and manifest unchanged; and over any whole run the
uploaded hashes per destination are pairwise distinct, so the same
checksum is never uploaded twice to the same destination. -/
theorem claim_C1_skip_idempotent :
    (∀ (adapter : Nat → UploadOutcome) (p : Photo) (fname locator : String)
       (st : IterState), st.ds.enabled = true →
       optTruthy (dget st.ds.inv p.md5) = true →
       uploadLoop adapter p fname locator st = ⟨st, 0, some true, []⟩) ∧
    (∀ (bhv : Behavior) (fuel : Nat) (gp yp : String) (st : RunState) (ps : List Photo)
       (ro : RunOut), processAll bhv fuel gp yp st ps = some ro →
       List.Pairwise (fun a b : String × String => a.1 ≠ b.1) ro.gups ∧
       List.Pairwise (fun a b : String × String => a.1 ≠ b.1) ro.yups) := by
  constructor
  · intro adapter p fname locator st he ht
    have hr : attemptOnce (adapter 0) p fname locator st = ⟨st, 0, some true, []⟩ := by
      unfold attemptOnce
      rw [he, ht]
      simp
    unfold uploadLoop uploadLoopAux
    rw [hr]
  · intro bhv fuel gp yp st ps ro h
    constructor
    · have hg := processAll_g_inv bhv fuel gp yp ps st ro [] h
        (by intro hn hm; exact absurd hm (List.not_mem_nil hn)) List.Pairwise.nil
      have hd := hg.1
      simp only [List.nil_append] at hd
      exact hd.imp fun hab => hab.1
    · have hy := processAll_y_inv bhv fuel gp yp ps st ro [] h
        (by intro hn hm; exact absurd hm (List.not_mem_nil hn)) List.Pairwise.nil
      have hd := hy.1
      simp only [List.nil_append] at hd
      exact hd.imp fun hab => hab.1

/-- Witness for C1: a pre-seeded inventory holding the item's checksum
under the name 3.jpg forces a SKIPPED outcome with zero calls, and the
concrete run never uploads a checksum twice. -/
theorem claim_C1_skip_idempotent_witness :
    uploadLoop (fun _ => .success) photoA "10.jpg" "google:/gp"
        ⟨⟨true, [("c1", "3.jpg")]⟩, []⟩
      = ⟨⟨⟨true, [("c1", "3.jpg")]⟩, []⟩, 0, some true, []⟩ ∧
    List.Pairwise (fun a b : String × String => a.1 ≠ b.1) runOutC.gups :=
  ⟨claim_C1_skip_idempotent.1 (fun _ => .success) photoA "10.jpg" "google:/gp"
      ⟨⟨true, [("c1", "3.jpg")]⟩, []⟩ (by decide) (by decide),
   (claim_C1_skip_idempotent.2 bhvAllSuccess 5 "gp" "yp" runStart
      [photoA, photoB, photoC] runOutC (by decide)).1⟩

/-! Claim C3: retry bound of three attempts. -/

/-- C3: an adapter that always raises an unclassified error is called
exactly 3 times for the (item, destination) pair; afterwards the pair is
abandoned with no inventory record and no manifest entry; and the run
is never aborted by such failures: an item is fully processed exactly
when its name resolution terminates, whatever the adapters do. -/
theorem claim_C3_retry_bound :
    (∀ (adapter : Nat → UploadOutcome) (p : Photo) (fname locator : String)
       (st : IterState), st.ds.enabled = true →
       optTruthy (dget st.ds.inv p.md5) = false →
       (∀ k, adapter k = .transientError) →
       uploadLoop adapter p fname locator st = ⟨st, 3, none, []⟩) ∧
    (∀ (bhv : Behavior) (fuel : Nat) (gp yp : String) (st : RunState) (p : Photo),
       (processItem bhv fuel gp yp st p).isSome
         = (resolveLoop st.g.enabled st.y.enabled st.g.inv st.y.inv p fuel
             (initialName p)).isSome) := by
  constructor
  · intro adapter p fname locator st he ht hk
    have ha : ∀ k, attemptOnce (adapter k) p fname locator st = ⟨st, 1, none, []⟩ := by
      intro k
      unfold attemptOnce
      rw [he, ht, hk k]
      simp
    have hlen : ∀ as, uploadLoopAux adapter p fname locator as st
        = ⟨st, as.length, none, []⟩ := by
      intro as
      induction as with
      | nil => rfl
      | cons a rest ih =>
        unfold uploadLoopAux
        rw [ha a]
        dsimp only
        rw [ih]
        simp [Nat.add_comm]
    have h3 := hlen [0, 1, 2]
    simpa using h3
  · intro bhv fuel gp yp st p
    unfold processItem
    cases hres : resolveLoop st.g.enabled st.y.enabled st.g.inv st.y.inv p fuel
        (initialName p) with
    | none => rfl
    | some f => rfl

/-- Witness for C3: three transient failures on a concrete empty-state
destination, and run continuation on the concrete run. -/
theorem claim_C3_retry_bound_witness :
    uploadLoop (fun _ => .transientError) photoA "10.jpg" "google:/gp" ⟨⟨true, []⟩, []⟩
      = ⟨⟨⟨true, []⟩, []⟩, 3, none, []⟩ ∧
    (processItem bhvAllSuccess 5 "gp" "yp" runStart photoA).isSome
      = (resolveLoop true false [] [] photoA 5 (initialName photoA)).isSome :=
  ⟨claim_C3_retry_bound.1 (fun _ => .transientError) photoA "10.jpg" "google:/gp"
      ⟨⟨true, []⟩, []⟩ (by decide) (by decide) (fun _ => rfl),
   claim_C3_retry_bound.2 bhvAllSuccess 5 "gp" "yp" runStart photoA⟩

/-! Claim C2 support: disabled destinations. -/

lemma uploadLoopAux_disabled (adapter : Nat → UploadOutcome) (p : Photo)
    (fname locator : String) (st : IterState) (he : st.ds.enabled = false) :
    ∀ as, uploadLoopAux adapter p fname locator as st = ⟨st, 0, none, []⟩ := by
  intro as
  induction as with
  | nil => rfl
  | cons a rest ih =>
    have hr : attemptOnce (adapter a) p fname locator st = ⟨st, 0, none, []⟩ := by
      unfold attemptOnce
      rw [he]
      simp
    unfold uploadLoopAux
    rw [hr]
    dsimp only
    rw [ih]
    rfl

lemma resolveLoop_gfalse (yE : Bool) (g1 g2 yInv : List (String × String)) (p : Photo) :
    ∀ fuel f, resolveLoop false yE g1 yInv p fuel f
      = resolveLoop false yE g2 yInv p fuel f := by
  intro fuel
  induction fuel with
  | zero => intro f; rfl
  | succ n ih =>
    intro f
    unfold resolveLoop
    have hone : resolveOnce false yE g1 yInv p f = resolveOnce false yE g2 yInv p f := by
      simp [resolveOnce]
    rw [hone]
    cases resolveOnce false yE g2 yInv p f with
    | none => rfl
    | some f2 => exact ih f2

lemma resolveLoop_yfalse (gE : Bool) (gInv y1 y2 : List (String × String)) (p : Photo) :
    ∀ fuel f, resolveLoop gE false gInv y1 p fuel f
      = resolveLoop gE false gInv y2 p fuel f := by
  intro fuel
  induction fuel with
  | zero => intro f; rfl
  | succ n ih =>
    intro f
    unfold resolveLoop
    have hone : resolveOnce gE false gInv y1 p f = resolveOnce gE false gInv y2 p f := by
      simp [resolveOnce]
    rw [hone]
    cases resolveOnce gE false gInv y2 p f with
    | none => rfl
    | some f2 => exact ih f2

lemma processItem_gdisabled_self (bhv : Behavior) (fuel : Nat) (gp yp : String)
    (st : RunState) (p : Photo) (o : ItemOut) (h1 : st.g.enabled = false)
    (h : processItem bhv fuel gp yp st p = some o) :
    o.st.g = st.g ∧ o.gcalls = 0 ∧ o.gups = [] := by
  unfold processItem at h
  cases hres : resolveLoop st.g.enabled st.y.enabled st.g.inv st.y.inv p fuel
      (initialName p) with
  | none => rw [hres] at h; cases h
  | some fname =>
    rw [hres] at h
    have hlg := uploadLoopAux_disabled (bhv.gAdapter p) p fname (gLocator gp)
      ⟨st.g, st.mf⟩ h1 [0, 1, 2]
    injection h with h2
    subst h2
    refine ⟨?_, ?_, ?_⟩ <;> simp [uploadLoop, hlg]

lemma processItem_ydisabled_self (bhv : Behavior) (fuel : Nat) (gp yp : String)
    (st : RunState) (p : Photo) (o : ItemOut) (h1 : st.y.enabled = false)
    (h : processItem bhv fuel gp yp st p = some o) :
    o.st.y = st.y ∧ o.ycalls = 0 ∧ o.yups = [] := by
  unfold processItem at h
  cases hres : resolveLoop st.g.enabled st.y.enabled st.g.inv st.y.inv p fuel
      (initialName p) with
  | none => rw [hres] at h; cases h
  | some fname =>
    rw [hres] at h
    have hly := uploadLoopAux_disabled (bhv.yAdapter p) p fname (yLocator yp)
      ⟨st.y, (uploadLoopAux (bhv.gAdapter p) p fname (gLocator gp) [0, 1, 2]
        ⟨st.g, st.mf⟩).st.mf⟩ h1 [0, 1, 2]
    injection h with h2
    subst h2
    refine ⟨?_, ?_, ?_⟩ <;> simp [uploadLoop, hly]

lemma processAll_gdisabled_self (bhv : Behavior) (fuel : Nat) (gp yp : String) :
    ∀ ps (st : RunState) (ro : RunOut), st.g.enabled = false →
      processAll bhv fuel gp yp st ps = some ro →
      ro.st.g = st.g ∧ (∀ c ∈ ro.gcalls, c = 0) ∧ ro.gups = [] := by
  intro ps
  induction ps with
  | nil =>
    intro st ro h1 h
    injection h with h2
    subst h2
    exact ⟨rfl, by simp, rfl⟩
  | cons p ps ih =>
    intro st ro h1 h
    unfold processAll at h
    cases hi : processItem bhv fuel gp yp st p with
    | none => rw [hi] at h; cases h
    | some o =>
      rw [hi] at h
      dsimp only at h
      cases hr : processAll bhv fuel gp yp o.st ps with
      | none => rw [hr] at h; cases h
      | some ro2 =>
        rw [hr] at h
        injection h with h2
        subst h2
        obtain ⟨hog, hoc, hou⟩ := processItem_gdisabled_self bhv fuel gp yp st p o h1 hi
        obtain ⟨hrg, hrc, hru⟩ := ih o.st ro2 (by rw [hog]; exact h1) hr
        refine ⟨by rw [hrg, hog], ?_, by simp [hou, hru]⟩
        intro c hc
        rcases List.mem_cons.mp hc with hc1 | hc1
        · rw [hc1, hoc]
        · exact hrc c hc1

lemma processAll_ydisabled_self (bhv : Behavior) (fuel : Nat) (gp yp : String) :
    ∀ ps (st : RunState) (ro : RunOut), st.y.enabled = false →
      processAll bhv fuel gp yp st ps = some ro →
      ro.st.y = st.y ∧ (∀ c ∈ ro.ycalls, c = 0) ∧ ro.yups = [] := by
  intro ps
  induction ps with
  | nil =>
    intro st ro h1 h
    injection h with h2
    subst h2
    exact ⟨rfl, by simp, rfl⟩
  | cons p ps ih =>
    intro st ro h1 h
    unfold processAll at h
    cases hi : processItem bhv fuel gp yp st p with
    | none => rw [hi] at h; cases h
    | some o =>
      rw [hi] at h
      dsimp only at h
      cases hr : processAll bhv fuel gp yp o.st ps with
      | none => rw [hr] at h; cases h
      | some ro2 =>
        rw [hr] at h
        injection h with h2
        subst h2
        obtain ⟨hog, hoc, hou⟩ := processItem_ydisabled_self bhv fuel gp yp st p o h1 hi
        obtain ⟨hrg, hrc, hru⟩ := ih o.st ro2 (by rw [hog]; exact h1) hr
        refine ⟨by rw [hrg, hog], ?_, by simp [hou, hru]⟩
        intro c hc
        rcases List.mem_cons.mp hc with hc1 | hc1
        · rw [hc1, hoc]
        · exact hrc c hc1

/-- The Yandex-side observables of a run. -/
def projY (ro : RunOut) : DestState × List FileEntry × List Nat × List (String × String) :=
  (ro.st.y, ro.st.mf, ro.ycalls, ro.yups)

/-- The Google-side observables of a run. -/
def projG (ro : RunOut) : DestState × List FileEntry × List Nat × List (String × String) :=
  (ro.st.g, ro.st.mf, ro.gcalls, ro.gups)

lemma processItem_gdisabled_congr (bhv : Behavior) (fuel : Nat) (gp yp : String)
    (st st2 : RunState) (p : Photo) (h1 : st.g.enabled = false)
    (h2 : st2.g.enabled = false) (hy : st2.y = st.y) (hm : st2.mf = st.mf) :
    (processItem bhv fuel gp yp st p = none ∧ processItem bhv fuel gp yp st2 p = none) ∨
    (∃ o o2, processItem bhv fuel gp yp st p = some o ∧
      processItem bhv fuel gp yp st2 p = some o2 ∧
      o.st.g = st.g ∧ o2.st.g = st2.g ∧
      o2.st.y = o.st.y ∧ o2.st.mf = o.st.mf ∧ o2.ycalls = o.ycalls ∧
      o2.yups = o.yups) := by
  unfold processItem
  have hres : resolveLoop st2.g.enabled st2.y.enabled st2.g.inv st2.y.inv p fuel
      (initialName p)
      = resolveLoop st.g.enabled st.y.enabled st.g.inv st.y.inv p fuel (initialName p) := by
    rw [h1, h2, hy]
    exact resolveLoop_gfalse st.y.enabled st2.g.inv st.g.inv st.y.inv p fuel (initialName p)
  rw [hres]
  cases hr : resolveLoop st.g.enabled st.y.enabled st.g.inv st.y.inv p fuel
      (initialName p) with
  | none => exact Or.inl ⟨rfl, rfl⟩
  | some fname =>
    dsimp only
    have hlg := uploadLoopAux_disabled (bhv.gAdapter p) p fname (gLocator gp)
      ⟨st.g, st.mf⟩ h1 [0, 1, 2]
    have hlg2 := uploadLoopAux_disabled (bhv.gAdapter p) p fname (gLocator gp)
      ⟨st2.g, st2.mf⟩ h2 [0, 1, 2]
    simp only [uploadLoop]
    rw [hlg, hlg2]
    dsimp only
    rw [hy, hm]
    exact Or.inr ⟨_, _, rfl, rfl, rfl, rfl, rfl, rfl, rfl, rfl⟩

lemma processItem_ydisabled_congr (bhv : Behavior) (fuel : Nat) (gp yp : String)
    (st st2 : RunState) (p : Photo) (h1 : st.y.enabled = false)
    (h2 : st2.y.enabled = false) (hg : st2.g = st.g) (hm : st2.mf = st.mf) :
    (processItem bhv fuel gp yp st p = none ∧ processItem bhv fuel gp yp st2 p = none) ∨
    (∃ o o2, processItem bhv fuel gp yp st p = some o ∧
      processItem bhv fuel gp yp st2 p = some o2 ∧
      o.st.y = st.y ∧ o2.st.y = st2.y ∧
      o2.st.g = o.st.g ∧ o2.st.mf = o.st.mf ∧ o2.gcalls = o.gcalls ∧
      o2.gups = o.gups) := by
  unfold processItem
  have hres : resolveLoop st2.g.enabled st2.y.enabled st2.g.inv st2.y.inv p fuel
      (initialName p)
      = resolveLoop st.g.enabled st.y.enabled st.g.inv st.y.inv p fuel (initialName p) := by
    rw [h1, h2, hg]
    exact resolveLoop_yfalse st.g.enabled st.g.inv st2.y.inv st.y.inv p fuel (initialName p)
  rw [hres]
  cases hr : resolveLoop st.g.enabled st.y.enabled st.g.inv st.y.inv p fuel
      (initialName p) with
  | none => exact Or.inl ⟨rfl, rfl⟩
  | some fname =>
    dsimp only
    have hly := uploadLoopAux_disabled (bhv.yAdapter p) p fname (yLocator yp)
      ⟨st.y, (uploadLoopAux (bhv.gAdapter p) p fname (gLocator gp) [0, 1, 2]
        ⟨st.g, st.mf⟩).st.mf⟩ h1 [0, 1, 2]
    have hly2 := uploadLoopAux_disabled (bhv.yAdapter p) p fname (yLocator yp)
      ⟨st2.y, (uploadLoopAux (bhv.gAdapter p) p fname (gLocator gp) [0, 1, 2]
        ⟨st.g, st.mf⟩).st.mf⟩ h2 [0, 1, 2]
    simp only [uploadLoop]
    rw [hg, hm]
    rw [hly, hly2]
    exact Or.inr ⟨_, _, rfl, rfl, rfl, rfl, rfl, rfl, rfl, rfl⟩

lemma processAll_gdisabled_congr (bhv : Behavior) (fuel : Nat) (gp yp : String) :
    ∀ ps (st st2 : RunState),
      st.g.enabled = false → st2.g.enabled = false → st2.y = st.y → st2.mf = st.mf →
      (processAll bhv fuel gp yp st ps).map projY
        = (processAll bhv fuel gp yp st2 ps).map projY := by
  intro ps
  induction ps with
  | nil =>
    intro st st2 h1 h2 hy hm
    simp [processAll, projY, hy, hm]
  | cons p ps ih =>
    intro st st2 h1 h2 hy hm
    unfold processAll
    rcases processItem_gdisabled_congr bhv fuel gp yp st st2 p h1 h2 hy hm with
      ⟨hn1, hn2⟩ | ⟨o, o2, ho1, ho2, hog, ho2g, hyy, hym, hyc, hyu⟩
    · rw [hn1, hn2]
    · rw [ho1, ho2]
      dsimp only
      have hrec := ih o.st o2.st (by rw [hog]; exact h1) (by rw [ho2g]; exact h2)
        hyy hym
      cases hra : processAll bhv fuel gp yp o.st ps with
      | none =>
        rw [hra] at hrec
        cases hrb : processAll bhv fuel gp yp o2.st ps with
        | none => rfl
        | some ro2 => rw [hrb] at hrec; simp at hrec
      | some ro =>
        rw [hra] at hrec
        cases hrb : processAll bhv fuel gp yp o2.st ps with
        | none => rw [hrb] at hrec; simp at hrec
        | some ro2 =>
          rw [hrb] at hrec
          have hpe : ro.st.y = ro2.st.y ∧ ro.st.mf = ro2.st.mf ∧
              ro.ycalls = ro2.ycalls ∧ ro.yups = ro2.yups := by
            simpa [projY, Prod.ext_iff] using hrec
          simp only [Option.map_some', projY, Prod.mk.injEq, Option.some.injEq]
          exact ⟨hpe.1, hpe.2.1, by rw [hyc, hpe.2.2.1], by rw [hyu, hpe.2.2.2]⟩

lemma processAll_ydisabled_congr (bhv : Behavior) (fuel : Nat) (gp yp : String) :
    ∀ ps (st st2 : RunState),
      st.y.enabled = false → st2.y.enabled = false → st2.g = st.g → st2.mf = st.mf →
      (processAll bhv fuel gp yp st ps).map projG
        = (processAll bhv fuel gp yp st2 ps).map projG := by
  intro ps
  induction ps with
  | nil =>
    intro st st2 h1 h2 hg hm
    simp [processAll, projG, hg, hm]
  | cons p ps ih =>
    intro st st2 h1 h2 hg hm
    unfold processAll
    rcases processItem_ydisabled_congr bhv fuel gp yp st st2 p h1 h2 hg hm with
      ⟨hn1, hn2⟩ | ⟨o, o2, ho1, ho2, hog, ho2g, hgg, hgm, hgc, hgu⟩
    · rw [hn1, hn2]
    · rw [ho1, ho2]
      dsimp only
      have hrec := ih o.st o2.st (by rw [hog]; exact h1) (by rw [ho2g]; exact h2)
        hgg hgm
      cases hra : processAll bhv fuel gp yp o.st ps with
      | none =>
        rw [hra] at hrec
        cases hrb : processAll bhv fuel gp yp o2.st ps with
        | none => rfl
        | some ro2 => rw [hrb] at hrec; simp at hrec
      | some ro =>
        rw [hra] at hrec
        cases hrb : processAll bhv fuel gp yp o2.st ps with
        | none => rw [hrb] at hrec; simp at hrec
        | some ro2 =>
          rw [hrb] at hrec
          have hpe : ro.st.g = ro2.st.g ∧ ro.st.mf = ro2.st.mf ∧
              ro.gcalls = ro2.gcalls ∧ ro.gups = ro2.gups := by
            simpa [projG, Prod.ext_iff] using hrec
          simp only [Option.map_some', projG, Prod.mk.injEq, Option.some.injEq]
          exact ⟨hpe.1, hpe.2.1, by rw [hgc, hpe.2.2.1], by rw [hgu, hpe.2.2.2]⟩

/-! Claim C2 theorem. -/

/-- C2: a quota-exceeded exception at an upload attempt disables the
destination on the spot and the rest of that retry loop makes no
adapter calls; a disabled destination never receives an adapter call
and its state never changes; over the remainder of a run a disabled
destination stays disabled with zero adapter calls and no uploads on
every item; and the other destination's observable behaviour (its
state, the manifest, its call counts and uploads) does not depend on
the disabled destination's state — in both directions. -/
theorem claim_C2_quota_isolation :
    (∀ (adapter : Nat → UploadOutcome) (p : Photo) (fname locator : String)
       (a : Nat) (rest : List Nat) (st : IterState),
       st.ds.enabled = true → optTruthy (dget st.ds.inv p.md5) = false →
       adapter a = .quotaExceeded →
       uploadLoopAux adapter p fname locator (a :: rest) st
         = ⟨⟨⟨false, st.ds.inv⟩, st.mf⟩, 1, none, []⟩) ∧
    (∀ (adapter : Nat → UploadOutcome) (p : Photo) (fname locator : String)
       (st : IterState) (as : List Nat), st.ds.enabled = false →
       uploadLoopAux adapter p fname locator as st = ⟨st, 0, none, []⟩) ∧
    (∀ (bhv : Behavior) (fuel : Nat) (gp yp : String) (ps : List Photo)
       (st : RunState) (ro : RunOut), st.g.enabled = false →
       processAll bhv fuel gp yp st ps = some ro →
       ro.st.g = st.g ∧ (∀ c ∈ ro.gcalls, c = 0) ∧ ro.gups = []) ∧
    (∀ (bhv : Behavior) (fuel : Nat) (gp yp : String) (ps : List Photo)
       (st : RunState) (ro : RunOut), st.y.enabled = false →
       processAll bhv fuel gp yp st ps = some ro →
       ro.st.y = st.y ∧ (∀ c ∈ ro.ycalls, c = 0) ∧ ro.yups = []) ∧
    (∀ (bhv : Behavior) (fuel : Nat) (gp yp : String) (ps : List Photo)
       (st st2 : RunState),
       st.g.enabled = false → st2.g.enabled = false → st2.y = st.y → st2.mf = st.mf →
       (processAll bhv fuel gp yp st ps).map projY
         = (processAll bhv fuel gp yp st2 ps).map projY) ∧
    (∀ (bhv : Behavior) (fuel : Nat) (gp yp : String) (ps : List Photo)
       (st st2 : RunState),
       st.y.enabled = false → st2.y.enabled = false → st2.g = st.g → st2.mf = st.mf →
       (processAll bhv fuel gp yp st ps).map projG
         = (processAll bhv fuel gp yp st2 ps).map projG) := by
  refine ⟨?_, ?_, ?_, ?_, ?_, ?_⟩
  · intro adapter p fname locator a rest st he ht hq
    have hr : attemptOnce (adapter a) p fname locator st
        = ⟨⟨⟨false, st.ds.inv⟩, st.mf⟩, 1, none, []⟩ := by
      unfold attemptOnce
      rw [he, ht, hq]
      simp
    unfold uploadLoopAux
    rw [hr]
    dsimp only
    rw [uploadLoopAux_disabled adapter p fname locator ⟨⟨false, st.ds.inv⟩, st.mf⟩
      rfl rest]
    rfl
  · intro adapter p fname locator st as he
    exact uploadLoopAux_disabled adapter p fname locator st he as
  · intro bhv fuel gp yp ps st ro h1 h
    exact processAll_gdisabled_self bhv fuel gp yp ps st ro h1 h
  · intro bhv fuel gp yp ps st ro h1 h
    exact processAll_ydisabled_self bhv fuel gp yp ps st ro h1 h
  · intro bhv fuel gp yp ps st st2 h1 h2 hy hm
    exact processAll_gdisabled_congr bhv fuel gp yp ps st st2 h1 h2 hy hm
  · intro bhv fuel gp yp ps st st2 h1 h2 hg hm
    exact processAll_ydisabled_congr bhv fuel gp yp ps st st2 h1 h2 hg hm

/-- A run state whose Google destination is already disabled. -/
def runStartGDisabled : RunState := ⟨⟨false, []⟩, ⟨true, []⟩, []⟩

/-- The output of the one-photo run from runStartGDisabled. -/
def runOutD : RunOut :=
  ⟨⟨⟨false, []⟩, ⟨true, [("c1", "10.jpg")]⟩,
    [⟨"10.jpg", "s1", "c1", ["yandex:/yp"]⟩]⟩, [0], [1], [], [("c1", "10.jpg")]⟩

/-- Witness for C2: a quota outcome at the first attempt on a concrete
enabled destination, and the concrete disabled-Google run keeps Google
untouched with no uploads. -/
theorem claim_C2_quota_isolation_witness :
    uploadLoopAux (fun _ => .quotaExceeded) photoA "10.jpg" "google:/gp" [0, 1, 2]
        ⟨⟨true, []⟩, []⟩
      = ⟨⟨⟨false, []⟩, []⟩, 1, none, []⟩ ∧
    runOutD.st.g = runStartGDisabled.g ∧ runOutD.gups = [] :=
  ⟨claim_C2_quota_isolation.1 (fun _ => .quotaExceeded) photoA "10.jpg" "google:/gp"
      0 [1, 2] ⟨⟨true, []⟩, []⟩ (by decide) (by decide) rfl,
   (claim_C2_quota_isolation.2.2.1 bhvAllSuccess 5 "gp" "yp" [photoA]
      runStartGDisabled runOutD (by decide) (by decide)).1,
   (claim_C2_quota_isolation.2.2.1 bhvAllSuccess 5 "gp" "yp" [photoA]
      runStartGDisabled runOutD (by decide) (by decide)).2.2⟩

/-! Claim C7 theorem. -/

/-- C7: for every item a single name is resolved before any upload
attempt and that same name is passed to both destinations' retry loops;
when resolution finishes, every enabled destination either has no
existing entry under the chosen name or already holds the item's
content hash. -/
theorem claim_C7_shared_name (bhv : Behavior) (fuel : Nat) (gp yp : String)
    (st : RunState) (p : Photo) (o : ItemOut)
    (h : processItem bhv fuel gp yp st p = some o) :
    ∃ fname,
      resolveLoop st.g.enabled st.y.enabled st.g.inv st.y.inv p fuel (initialName p)
        = some fname ∧
      (st.g.enabled = true →
        nameCollides st.g.inv fname = false ∨ optTruthy (dget st.g.inv p.md5) = true) ∧
      (st.y.enabled = true →
        nameCollides st.y.inv fname = false ∨ optTruthy (dget st.y.inv p.md5) = true) ∧
      o = ⟨⟨(uploadLoop (bhv.gAdapter p) p fname (gLocator gp) ⟨st.g, st.mf⟩).st.ds,
            (uploadLoop (bhv.yAdapter p) p fname (yLocator yp)
              ⟨st.y, (uploadLoop (bhv.gAdapter p) p fname (gLocator gp)
                ⟨st.g, st.mf⟩).st.mf⟩).st.ds,
            (uploadLoop (bhv.yAdapter p) p fname (yLocator yp)
              ⟨st.y, (uploadLoop (bhv.gAdapter p) p fname (gLocator gp)
                ⟨st.g, st.mf⟩).st.mf⟩).st.mf⟩,
          (uploadLoop (bhv.gAdapter p) p fname (gLocator gp) ⟨st.g, st.mf⟩).calls,
          (uploadLoop (bhv.yAdapter p) p fname (yLocator yp)
            ⟨st.y, (uploadLoop (bhv.gAdapter p) p fname (gLocator gp)
              ⟨st.g, st.mf⟩).st.mf⟩).calls,
          (uploadLoop (bhv.gAdapter p) p fname (gLocator gp) ⟨st.g, st.mf⟩).ups,
          (uploadLoop (bhv.yAdapter p) p fname (yLocator yp)
            ⟨st.y, (uploadLoop (bhv.gAdapter p) p fname (gLocator gp)
              ⟨st.g, st.mf⟩).st.mf⟩).ups⟩ := by
  unfold processItem at h
  cases hres : resolveLoop st.g.enabled st.y.enabled st.g.inv st.y.inv p fuel
      (initialName p) with
  | none => rw [hres] at h; cases h
  | some fname =>
    rw [hres] at h
    injection h with h2
    have hpost := resolveOnce_none_spec st.g.enabled st.y.enabled st.g.inv st.y.inv p
      fname (resolveLoop_post st.g.enabled st.y.enabled st.g.inv st.y.inv p fuel
        (initialName p) fname hres)
    exact ⟨fname, rfl, hpost.1, hpost.2, h2.symm⟩

/-- The output of processing photoA from runStart. -/
def itemOutA : ItemOut :=
  ⟨⟨⟨true, [("c1", "10.jpg")]⟩, ⟨false, []⟩,
    [⟨"10.jpg", "s1", "c1", ["google:/gp"]⟩]⟩, 1, 0, [("c1", "10.jpg")], []⟩

/-- Witness for C7: the concrete item run resolves a name. -/
theorem claim_C7_shared_name_witness :
    (resolveLoop runStart.g.enabled runStart.y.enabled runStart.g.inv runStart.y.inv
      photoA 5 (initialName photoA)).isSome = true := by
  obtain ⟨fname, hres, _⟩ := claim_C7_shared_name bhvAllSuccess 5 "gp" "yp" runStart
    photoA itemOutA (by decide)
  rw [hres]
  rfl

end VKArchive
